import Mathlib

/-!
Verification development for the `validate` Go repository (rule model,
string rule parser, and data-source constructors).

The embedding is shallow: each Go function of `src/unnamed/part_000`
(the rule model and string-rule parser) and `src/quick_start.go`
(data-source constructors) is translated into an executable Lean
definition.  Go `interface\x7b\x7d` values are modelled by the inductive
type `GoVal`; Go maps are modelled by association lists carrying the
iteration sequence explicitly, because Go map iteration order is
unspecified.  A Go method with pointer receiver that mutates the
receiver is modelled as a function returning the updated value; when
the Go method additionally returns the receiver (for chaining), the
model returns a pair whose second component is `some` of the returned
rule, and `none` when the Go method has no return value.
-/

/-! ## String helpers (semantics of the Go strings package operations used) -/

/-- Go `strings.TrimSpace`: drop leading and trailing whitespace. -/
def strTrim (s : String) : String :=
  String.mk (((s.data.dropWhile Char.isWhitespace).reverse.dropWhile Char.isWhitespace).reverse)

/-- Go `strings.Trim(s, cutset)`: drop leading and trailing characters in `cs`. -/
def trimChars (s : String) (cs : List Char) : String :=
  String.mk (((s.data.dropWhile (fun c => cs.contains c)).reverse.dropWhile
    (fun c => cs.contains c)).reverse)

/-- Split a character list at every occurrence of `sep` (Go `strings.Split`). -/
def splitCharList : List Char → Char → List (List Char)
  | [], _ => [[]]
  | c :: rest, sep =>
    let tail := splitCharList rest sep
    if c == sep then [] :: tail
    else
      match tail with
      | [] => [[c]]
      | p :: ps => (c :: p) :: ps

/-- Go `strings.ContainsRune`. -/
def strContainsChar (s : String) (c : Char) : Bool :=
  s.data.contains c

/-- True when `pat` is an initial segment of `l`. -/
def leadsWith : List Char → List Char → Bool
  | [], _ => true
  | _ :: _, [] => false
  | a :: as1, b :: bs => a == b && leadsWith as1 bs

/-- True when `pat` occurs inside `l` as a contiguous segment. -/
def hasSub (pat : List Char) : List Char → Bool
  | [] => leadsWith pat []
  | c :: rest => leadsWith pat (c :: rest) || hasSub pat rest

/-- Go `strings.Contains(s, pat)`. -/
def strContains (s pat : String) : Bool :=
  hasSub pat.data s.data

/-! ## The model of Go values -/

/-- Model of a Go `interface\x7b\x7d` value as it is observed by the engine:
the nil interface, a possibly-nil pointer, a struct (flagged when its type
is `time.Time`, the one struct type the engine rejects), strings, integers,
booleans, a `[]string` slice (the grouped argument of `enum`/`notIn`), and
a generic slice. -/
inductive GoVal where
  | nilV : GoVal
  | ptrV : Option GoVal → GoVal
  | structV : Bool → List (String × GoVal) → GoVal
  | strV : String → GoVal
  | intV : Int → GoVal
  | boolV : Bool → GoVal
  | strListV : List String → GoVal
  | sliceV : List GoVal → GoVal

/-- Go type `MS = map[string]string`.  The embedding carries the map as the
sequence in which Go would range over its entries; Go leaves that order
unspecified, so theorems quantify over the sequence. -/
abbrev MS := List (String × String)

/-- Signature of a custom check function (Go: first argument is the value
under validation, returning a boolean). -/
abbrev CheckFn := GoVal → Bool

/-- Signature of a rule filter hook (Go `func(val interface\x7b\x7d)
(interface\x7b\x7d, error)`). -/
abbrev FilterFn := GoVal → GoVal × Option String

/-- Signature of a rule before hook.  In Go the hook also receives the
`*Validation` engine; a structure cannot refer to itself through a function
field, and no verified operation ever invokes the hook, so the engine
argument is dropped from the modelled signature. -/
abbrev BeforeFn := String → Bool

/-- Meta information stored for a custom check function. -/
structure funcMeta where
  fv : CheckFn
  name : String
  official : Bool

/-- Modelled from the spec: `newFuncMeta` is not in src/.  It packs the
check function with its registration name and an official flag. -/
def newFuncMeta (name : String) (official : Bool) (fv : CheckFn) : funcMeta :=
  { fv := fv, name := name, official := official }

/-- Modelled from the spec: `checkValidatorFunc` is not in src/.  The spec
says the callable is validated structurally (argument count and types) at
registration time; in a typed embedding only structurally valid check
functions exist, so the structural check is absorbed by the type `CheckFn`
and the function passes the callable through. -/
def checkValidatorFunc (_name : String) (checkFunc : CheckFn) : CheckFn :=
  checkFunc

/-! ## The Rule model (struct `Rule` of src/unnamed/part_000) -/

/-- The validation rule struct, field for field from the source. -/
structure Rule where
  scene : String
  fields : List String
  optional : Bool
  skipEmpty : Bool
  defValue : Option GoVal
  message : String
  messages : Option MS
  validator : String
  arguments : List GoVal
  beforeFunc : Option BeforeFn
  filterFunc : Option FilterFn
  checkFuncMeta : Option funcMeta
  emptyChecker : Option (GoVal → Bool)

/-- Modelled from the spec: `stringSplit` is not in src/.  Per the parser
description it splits on the separator, trims whitespace from every piece,
and drops empty pieces ("skip empty tokens, defensive against stray
separators").  A blank input yields no pieces. -/
def stringSplit (s : String) (sep : Char) : List String :=
  if strTrim s == "" then []
  else ((splitCharList (strTrim s).data sep).map (fun p => strTrim (String.mk p))).filter
    (fun t => !(t == ""))

/-- Go `NewRule(fields, validator, args...)`: comma-split the field list,
store validator and arguments, and leave every other attribute at its Go
zero value. -/
def NewRule (fields validator : String) (args : List GoVal) : Rule :=
  { scene := ""
    fields := stringSplit fields ','
    optional := false
    skipEmpty := false
    defValue := none
    message := ""
    messages := none
    validator := validator
    arguments := args
    beforeFunc := none
    filterFunc := none
    checkFuncMeta := none
    emptyChecker := none }

/-! ## The Validation engine state -/

/-- Modelled from the spec: the `Validation` struct itself is not in src/,
only its methods are.  The fields below are the ones those methods touch:
the engine-level skip-on-empty policy (capitalised `SkipOnEmpty`, as the
source reads `v.SkipOnEmpty`), the ordered rule sequence, the recorded
per-field default values (written by `SetDefValue`), the recorded filter
rules (written by `FilterRule`), and the translator, modelled as the
`Message(validator, field, args...)` function the source invokes on
`v.trans`.  Engine attributes no verified operation touches (scene, error
bag, safe data, stop-on-error flag) are omitted. -/
structure Validation where
  SkipOnEmpty : Bool
  rules : List Rule
  defValues : MS
  filterRules : List (String × String)
  trans : String → String → List GoVal → String

/-! ## Rule configuration setters (src/unnamed/part_000, lines 60-127)

Encoding of Go pointer-receiver methods: the first component of the result
is the updated rule (the state of the receiver after the call); the second
is the Go return value, `some` of the returned rule when the Go method
returns `*Rule` for chaining, `none` when the Go method returns nothing. -/

/-- Go `SetScene`: store the scene name; returns the rule. -/
def Rule.SetScene (r : Rule) (scene : String) : Rule × Option Rule :=
  let r1 : Rule := { r with scene := scene }
  (r1, some r1)

/-- Go `SetOptional`: store the optional flag; the Go method has no return
value. -/
def Rule.SetOptional (r : Rule) (optional : Bool) : Rule × Option Rule :=
  ({ r with optional := optional }, none)

/-- Go `SetSkipEmpty`: store the skip-empty flag; the Go method has no
return value. -/
def Rule.SetSkipEmpty (r : Rule) (skipEmpty : Bool) : Rule × Option Rule :=
  ({ r with skipEmpty := skipEmpty }, none)

/-- Go `SetCheckFunc`: derive the registration name from the validator
name (or, when it is blank, from the joined field names), pass the callable
through `checkValidatorFunc`, store the resulting meta; returns the rule. -/
def Rule.SetCheckFunc (r : Rule) (checkFunc : CheckFn) : Rule × Option Rule :=
  let name := if !(r.validator == "") then "rule_" ++ r.validator
    else "rule_" ++ String.intercalate "_" r.fields
  let fv := checkValidatorFunc name checkFunc
  let r1 : Rule := { r with checkFuncMeta := some (newFuncMeta name false fv) }
  (r1, some r1)

/-- Go `SetFilterFunc`: store the filter hook; returns the rule. -/
def Rule.SetFilterFunc (r : Rule) (fn : FilterFn) : Rule × Option Rule :=
  let r1 : Rule := { r with filterFunc := some fn }
  (r1, some r1)

/-- Go `SetBeforeFunc`: store the before hook; the Go method has no return
value. -/
def Rule.SetBeforeFunc (r : Rule) (fn : BeforeFn) : Rule × Option Rule :=
  ({ r with beforeFunc := some fn }, none)

/-- Go `SetMessage`: store the single error message; returns the rule. -/
def Rule.SetMessage (r : Rule) (errMsg : String) : Rule × Option Rule :=
  let r1 : Rule := { r with message := errMsg }
  (r1, some r1)

/-- Go `SetMessages`: store the error message map; returns the rule. -/
def Rule.SetMessages (r : Rule) (msgMap : MS) : Rule × Option Rule :=
  let r1 : Rule := { r with messages := some msgMap }
  (r1, some r1)

/-- Go `Fields`: the field name list of the rule. -/
def Rule.Fields (r : Rule) : List String :=
  r.fields

/-- Go `errorMessage(field, validator, v)` (src/unnamed/part_000, lines
129-149): when the message map is set, try the full key
`field ++ "." ++ validator`, then the bare field key; otherwise use the
single message when non-empty; otherwise fall through to the translator
with the validator name, the field name and the rule arguments. -/
def Rule.errorMessage (r : Rule) (field validator : String) (v : Validation) : String :=
  match r.messages with
  | some msgs =>
    match msgs.lookup (field ++ "." ++ validator) with
    | some m => m
    | none =>
      match msgs.lookup field with
      | some m => m
      | none =>
        if !(r.message == "") then r.message
        else v.trans validator field r.arguments
  | none =>
    if !(r.message == "") then r.message
    else v.trans validator field r.arguments

/-! ## String rule parsing helpers -/

/-- Modelled from the spec: `ValidatorName` is not in src/.  The spec
speaks of a validator name "normalising" to a canonical name, so the model
is an alias table with identity fallback; no concrete alias is specified,
hence the table is empty and every claim theorem is stated relative to the
output of this normalisation. -/
def validatorAliases : MS := []

/-- Normalise a validator name through the alias table. -/
def ValidatorName (name : String) : String :=
  (validatorAliases.lookup name).getD name

/-- Modelled from the spec: `parseArgString` is not in src/.  The spec says
the remainder after the first colon is split on commas into a raw argument
list. -/
def parseArgString (argStr : String) : List String :=
  stringSplit argStr ','

/-- Digit-only strings are taken as numbers by the best-effort coercion. -/
def looksInt (s : String) : Bool :=
  !(s == "") && s.data.all (fun c => c.isDigit)

/-- Decimal value of a digit string. -/
def strToInt (s : String) : Int :=
  Int.ofNat (s.data.foldl (fun n c => n * 10 + (c.toNat - 48)) 0)

/-- Modelled from the spec: the element conversion of `strings2Args` is not
in src/.  Per the spec each split argument is "converted from string to an
appropriate primitive when it looks numeric/boolean; ambiguous tokens
remain strings". -/
def str2Arg (s : String) : GoVal :=
  if looksInt s then GoVal.intV (strToInt s)
  else if s == "true" then GoVal.boolV true
  else if s == "false" then GoVal.boolV false
  else GoVal.strV s

/-- Modelled from the spec: `strings2Args` is not in src/; it lifts the
split argument strings to individual positional argument values. -/
def strings2Args (ss : List String) : List GoVal :=
  ss.map str2Arg

/-- The source computes `list := stringSplit(validator, CHAR)` and uses
`list[0]` and `list[1]`; `stringSplit` is not in src/, and the spec fixes
this step as "split name from the remainder" with, for `regexp`, "the
entire remainder after the first colon" passed through whole.  So the
token decomposition is modelled as the pair (text before the first colon,
entire text after the first colon). -/
def splitFirstColon (s : String) : String × String :=
  (String.mk (s.data.takeWhile (fun c => !(c == ':'))),
   String.mk ((s.data.dropWhile (fun c => !(c == ':'))).drop 1))

/-! ## Engine operations on rules (src/unnamed/part_000, lines 155-240) -/

/-- Update an association list at a key, appending when absent. -/
def setAssoc (m : MS) (k v : String) : MS :=
  match m with
  | [] => [(k, v)]
  | (k1, v1) :: rest => if k1 == k then (k, v) :: rest else (k1, v1) :: setAssoc rest k v

/-- Modelled from the spec: `SetDefValue` is not in src/.  Per the spec the
`default` token "records a default value to inject into the data source for
the field before any rule runs"; the record is a field-to-value map write.
The rule sequence is untouched. -/
def Validation.SetDefValue (v : Validation) (field val : String) : Validation :=
  { v with defValues := setAssoc v.defValues field val }

/-- Modelled from the spec: `FilterRule` is not in src/.  Per the spec the
trailing filter-rule token "is applied as a value-coercion filter for the
field"; the model records the (field, filter rule) pair.  The rule sequence
is untouched. -/
def Validation.FilterRule (v : Validation) (field rule : String) : Validation :=
  { v with filterRules := v.filterRules ++ [(field, rule)] }

/-- Go `AddRule(fields, validator, args...)` (lines 226-232): build the
rule with `NewRule`, overwrite its skip-empty flag with the engine policy
`v.SkipOnEmpty`, append it to the rule sequence, and return it. -/
def Validation.AddRule (v : Validation) (fields validator : String) (args : List GoVal) :
    Validation × Rule :=
  let rule := NewRule fields validator args
  let rule1 : Rule := { rule with skipEmpty := v.SkipOnEmpty }
  ({ v with rules := v.rules ++ [rule1] }, rule1)

/-- Go `AppendRule(rule)` (lines 234-240): overwrite the skip-empty flag of
the given rule with the engine policy, append, and return it. -/
def Validation.AppendRule (v : Validation) (rule : Rule) : Validation × Rule :=
  let rule1 : Rule := { rule with skipEmpty := v.SkipOnEmpty }
  ({ v with rules := v.rules ++ [rule1] }, rule1)

/-- The body of the token loop of Go `StringRule` (lines 163-190): trim
colons off the token; skip it when blank; when it still contains a colon,
split name from remainder, comma-split the remainder, normalise the name
and dispatch — `default` records a default value and adds no rule,
`regexp` passes the whole remainder as the single argument, `enum`/`notIn`
pass the split arguments as one grouped list argument, every other
validator gets the split arguments as individual positional arguments;
a token without a colon becomes a zero-argument rule. -/
def Validation.processToken (v : Validation) (field token : String) : Validation :=
  let validator := trimChars token [':']
  if validator == "" then v
  else if strContainsChar validator ':' then
    let nameRest := splitFirstColon validator
    let args := parseArgString nameRest.2
    let name := ValidatorName nameRest.1
    if name == "default" then v.SetDefValue field nameRest.2
    else if name == "regexp" then (v.AddRule field nameRest.1 [GoVal.strV nameRest.2]).1
    else if name == "enum" || name == "notIn" then
      (v.AddRule field nameRest.1 [GoVal.strListV args]).1
    else (v.AddRule field nameRest.1 (strings2Args args)).1
  else (v.AddRule field validator []).1

/-- The token sequence Go `StringRule` iterates over: trim whitespace off
the rule text, trim pipes and colons off its ends, split on pipes. -/
def ruleTokens (rule : String) : List String :=
  stringSplit (trimChars (strTrim rule) ['|', ':']) '|'

/-- Go `StringRule(field, rule, filterRule...)` (lines 160-197): process
every pipe-separated token, then record the first trailing filter rule
when one is supplied. -/
def Validation.StringRule (v : Validation) (field rule : String) (filterRule : List String) :
    Validation :=
  let v1 := (ruleTokens rule).foldl (fun acc t => acc.processToken field t) v
  match filterRule with
  | [] => v1
  | fr :: _ => v1.FilterRule field fr

/-- Go `StringRules(mp)` (lines 205-210): range over the map and feed every
(field, rule text) pair to `StringRule`.  The Go `range` order over a map
is unspecified; the embedding receives the iteration sequence explicitly. -/
def Validation.StringRules (v : Validation) (mp : MS) : Validation :=
  mp.foldl (fun acc p => acc.StringRule p.1 p.2 []) v

/-- Go `ConfigRules(mp)` (lines 218-223), the alias of `StringRules`. -/
def Validation.ConfigRules (v : Validation) (mp : MS) : Validation :=
  mp.foldl (fun acc p => acc.StringRule p.1 p.2 []) v

/-! ## Data source constructors (src/quick_start.go) -/

/-- The fixed invalid-input error (the tests check the error text contains
"invalid input data"). -/
def ErrInvalidData : String := "invalid input data"

/-- Modelled from the spec: the error returned by `FromRequest` for an
unsupported body content type; its text is immaterial to the claims. -/
def ErrEmptyData : String := "empty data"

/-- Default struct tag name used by `FromStruct` (the tests tag fields with
`validate:"..."`). -/
def defaultValidateTag : String := "validate"

/-- The struct-backed data source.  `src` and `value` mirror the stored
argument and its dereferenced reflected value; the cached name and value
maps start empty as in the source. -/
structure StructData where
  ValidateTag : String
  fieldNames : List (String × Nat)
  fieldValues : List (String × GoVal)
  src : Option GoVal
  value : Option GoVal

/-- The map-backed data source: the decoded map plus the retained JSON
bytes when it was built from JSON. -/
structure MapData where
  Map : List (String × GoVal)
  bodyJSON : Option String

/-- The form-backed data source: accumulated (key, value) form pairs plus
uploaded file references (file names stand in for the Go file headers). -/
structure FormData where
  Form : List (String × List String)
  Files : List (String × String)

/-- The data source union returned by `FromRequest`. -/
inductive DataFace where
  | form : FormData → DataFace
  | mp : MapData → DataFace

/-- Go `reflect` step of `FromStruct`: a non-nil pointer is dereferenced
once; everything else is left as is. -/
def reflectDeref : GoVal → GoVal
  | GoVal.ptrV (some inner) => inner
  | v => v

/-- Kind check `val.Kind() == reflect.Struct`. -/
def isStructKind : GoVal → Bool
  | GoVal.structV _ _ => true
  | _ => false

/-- Type check `typ == timeType` (`time.Time`). -/
def isTimeStruct : GoVal → Bool
  | GoVal.structV isTime _ => isTime
  | _ => false

/-- The zero-initialised `StructData` built at the top of `FromStruct`. -/
def emptyStructData : StructData :=
  { ValidateTag := defaultValidateTag
    fieldNames := []
    fieldValues := []
    src := none
    value := none }

/-- Go `FromStruct(s)` (lines 98-125): a nil interface is rejected with
`ErrInvalidData`; a non-nil pointer is dereferenced; a value whose kind is
not struct, or whose type is `time.Time`, is rejected with
`ErrInvalidData`; otherwise the struct-backed data source is returned with
no error. -/
def FromStruct (s : GoVal) : StructData × Option String :=
  match s with
  | GoVal.nilV => (emptyStructData, some ErrInvalidData)
  | _ =>
    let val := reflectDeref s
    if isStructKind val && !(isTimeStruct val) then
      ({ emptyStructData with src := some s, value := some val }, none)
    else
      (emptyStructData, some ErrInvalidData)

/-- Go `FromJSONBytes(bs)` (lines 81-95).  JSON decoding itself is an
external collaborator (encoding/json, declared out of scope by the spec),
so the decoder that unmarshals bytes into a string-keyed map is a
parameter: `none` models a decode error.  On success the map and the
original bytes are stored. -/
def FromJSONBytes (decode : String → Option (List (String × GoVal))) (bs : String) :
    Except String MapData :=
  match decode bs with
  | none => Except.error "invalid JSON"
  | some mp => Except.ok { Map := mp, bodyJSON := some bs }

/-- Go `FromJSON(s)` (lines 76-78): delegate to `FromJSONBytes`. -/
def FromJSON (decode : String → Option (List (String × GoVal))) (s : String) :
    Except String MapData :=
  FromJSONBytes decode s

/-- Update a string-to-values association list at a key. -/
def setAssocList (m : List (String × List String)) (k : String) (v : List String) :
    List (String × List String) :=
  match m with
  | [] => [(k, v)]
  | (k1, v1) :: rest => if k1 == k then (k, v) :: rest else (k1, v1) :: setAssocList rest k v

/-- Go `FormData.Add(key, val)`: append the value under the key. -/
def FormData.Add (d : FormData) (key val : String) : FormData :=
  match d.Form.lookup key with
  | some vals => { d with Form := setAssocList d.Form key (vals ++ [val]) }
  | none => { d with Form := d.Form ++ [(key, [val])] }

/-- Go `FromURLValues(values)` (lines 183-192): add every value of every
key.  The Go `range` order over `url.Values` is unspecified; the embedding
receives the iteration sequence explicitly. -/
def FromURLValues (values : List (String × List String)) : FormData :=
  values.foldl (fun d p => p.2.foldl (fun d1 val => d1.Add p.1 val) d)
    { Form := [], Files := [] }

/-- Go `FromQuery(values)` (lines 197-199): alias of `FromURLValues`. -/
def FromQuery (values : List (String × List String)) : FormData :=
  FromURLValues values

/-- Go `FormData.AddValues(values)`: add every value of every key. -/
def FormData.AddValues (d : FormData) (values : List (String × List String)) : FormData :=
  values.foldl (fun d1 p => p.2.foldl (fun d2 val => d2.Add p.1 val) d1) d

/-- Go `FormData.AddFiles(files)`: merge the uploaded file references. -/
def FormData.AddFiles (d : FormData) (files : List (String × String)) : FormData :=
  { d with Files := d.Files ++ files }

/-- The observable inputs of Go `FromRequest`: method, Content-Type
header, URL query values, and — as external parsing collaborators — the
outcome of `ParseMultipartForm` (form values and uploaded files on
success), the outcome of `ParseForm` (the POST form on success), and the
outcome of reading the body (`none` models a read error). -/
structure HttpRequest where
  method : String
  contentType : String
  queryValues : List (String × List String)
  multipartParse : Option (List (String × List String) × List (String × String))
  formParse : Option (List (String × List String))
  bodyRead : Option String

/-- Go `FromRequest(r, maxMemoryLimit...)` (lines 128-180): any method
other than POST, PUT and PATCH yields a form data source built from the
URL query values alone, with no error; otherwise dispatch on the
Content-Type header — multipart form data (form values plus files plus
query values), urlencoded form (POST form plus query values), JSON body
(decoded map data), and otherwise the empty-data error.  The memory limit
only feeds the external multipart parser. -/
def FromRequest (decode : String → Option (List (String × GoVal)))
    (r : HttpRequest) (_maxMemoryLimit : List Int) : Except String DataFace :=
  if !(r.method == "POST") && !(r.method == "PUT") && !(r.method == "PATCH") then
    Except.ok (DataFace.form (FromURLValues r.queryValues))
  else
    let cType := r.contentType
    if strContains cType "multipart/form-data" then
      match r.multipartParse with
      | none => Except.error "multipart parse error"
      | some pr =>
        let data := FromURLValues pr.1
        let data := data.AddFiles pr.2
        let data := data.AddValues r.queryValues
        Except.ok (DataFace.form data)
    else if strContains cType "form-urlencoded" then
      match r.formParse with
      | none => Except.error "form parse error"
      | some postForm =>
        let data := FromURLValues postForm
        let data := data.AddValues r.queryValues
        Except.ok (DataFace.form data)
    else if strContains cType "application/json" then
      match r.bodyRead with
      | none => Except.error "read body error"
      | some bs => (FromJSONBytes decode bs).map DataFace.mp
    else Except.error ErrEmptyData

/-! ## Sample values used by concrete counterexamples and witnesses -/

/-- A concrete translator producing a default message from the validator
name and the field name. -/
def sampleTrans : String → String → List GoVal → String :=
  fun validator field _ => field ++ " fails " ++ validator

/-- A freshly created engine with no rules. -/
def sampleV : Validation :=
  { SkipOnEmpty := false
    rules := []
    defValues := []
    filterRules := []
    trans := sampleTrans }

/-- A concrete rule over one field. -/
def sampleRule : Rule := NewRule "name" "required" []

/-- Two iteration sequences of the same two-entry rule mapping. -/
def mpA : MS := [("a", "required"), ("b", "int")]

/-- The other iteration sequence of the same mapping as `mpA`. -/
def mpB : MS := [("b", "int"), ("a", "required")]

/-- Whether an `Except` result is a success. -/
def exceptOk {e a : Type} : Except e a → Bool
  | Except.ok _ => true
  | Except.error _ => false

/-- A concrete GET request carrying a query, a JSON content type and a
readable body: everything but the query must be ignored. -/
def sampleReq : HttpRequest :=
  { method := "GET"
    contentType := "application/json"
    queryValues := [("age", ["10"]), ("name", ["inhere"])]
    multipartParse := none
    formParse := some [("x", ["1"])]
    bodyRead := some "not json" }

/-! ## Spec-shaped restatements used by the claim theorems -/

/-- The message precedence chain exactly as the spec words it: map entry
under `field.validator`, then map entry under `field`, then the non-empty
single message, then the translator output. -/
def errorMessageSpec (r : Rule) (field validator : String) (v : Validation) : String :=
  match r.messages.bind (fun msgs => msgs.lookup (field ++ "." ++ validator)) with
  | some m => m
  | none =>
    match r.messages.bind (fun msgs => msgs.lookup field) with
    | some m => m
    | none =>
      if !(r.message == "") then r.message
      else v.trans validator field r.arguments

/-- The rules one token contributes to an engine whose skip-on-empty
policy is `sk`: none for a blank token or a `default` token with
arguments, and exactly one rule otherwise, shaped by the validator
dispatch of `processToken`. -/
def tokenRules (sk : Bool) (field token : String) : List Rule :=
  let validator := trimChars token [':']
  if validator == "" then []
  else if strContainsChar validator ':' then
    let nameRest := splitFirstColon validator
    let args := parseArgString nameRest.2
    let name := ValidatorName nameRest.1
    if name == "default" then []
    else if name == "regexp" then
      [{ NewRule field nameRest.1 [GoVal.strV nameRest.2] with skipEmpty := sk }]
    else if name == "enum" || name == "notIn" then
      [{ NewRule field nameRest.1 [GoVal.strListV args] with skipEmpty := sk }]
    else [{ NewRule field nameRest.1 (strings2Args args) with skipEmpty := sk }]
  else [{ NewRule field validator [] with skipEmpty := sk }]

/-- The rules one (field, rule text) pair contributes: the concatenation
of the per-token contributions in token order. -/
def stringRuleRules (sk : Bool) (field rule : String) : List Rule :=
  ((ruleTokens rule).map (tokenRules sk field)).flatten

/-- The rules a whole mapping contributes under a given iteration
sequence: the concatenation of the per-pair contributions in sequence
order. -/
def mapRules (sk : Bool) (mp : MS) : List Rule :=
  (mp.map (fun p => stringRuleRules sk p.1 p.2)).flatten

/-! ## Helper lemmas about the parser -/

lemma addRule_rules (v : Validation) (fields validator : String) (args : List GoVal) :
    ((v.AddRule fields validator args).1).rules =
      v.rules ++ [{ NewRule fields validator args with skipEmpty := v.SkipOnEmpty }] := rfl

lemma processToken_rules (v : Validation) (field token : String) :
    (v.processToken field token).rules = v.rules ++ tokenRules v.SkipOnEmpty field token := by
  unfold Validation.processToken tokenRules Validation.AddRule Validation.SetDefValue
  dsimp only
  split_ifs <;> simp

lemma processToken_skipOnEmpty (v : Validation) (field token : String) :
    (v.processToken field token).SkipOnEmpty = v.SkipOnEmpty := by
  unfold Validation.processToken Validation.AddRule Validation.SetDefValue
  dsimp only
  split_ifs <;> rfl

lemma foldl_processToken_rules (field : String) (ts : List String) (v : Validation) :
    (ts.foldl (fun acc t => acc.processToken field t) v).rules =
      v.rules ++ (ts.map (tokenRules v.SkipOnEmpty field)).flatten := by
  induction ts generalizing v with
  | nil => simp
  | cons t ts ih =>
    simp only [List.foldl_cons, List.map_cons, List.flatten_cons]
    rw [ih, processToken_rules, processToken_skipOnEmpty, List.append_assoc]

lemma foldl_processToken_skipOnEmpty (field : String) (ts : List String) (v : Validation) :
    (ts.foldl (fun acc t => acc.processToken field t) v).SkipOnEmpty = v.SkipOnEmpty := by
  induction ts generalizing v with
  | nil => rfl
  | cons t ts ih => simp only [List.foldl_cons]; rw [ih, processToken_skipOnEmpty]

lemma stringRule_rules (v : Validation) (field rule : String) :
    (v.StringRule field rule []).rules = v.rules ++ stringRuleRules v.SkipOnEmpty field rule := by
  unfold Validation.StringRule stringRuleRules
  exact foldl_processToken_rules field (ruleTokens rule) v

lemma stringRule_skipOnEmpty (v : Validation) (field rule : String) :
    (v.StringRule field rule []).SkipOnEmpty = v.SkipOnEmpty := by
  unfold Validation.StringRule
  exact foldl_processToken_skipOnEmpty field (ruleTokens rule) v

/-! ## Claim theorems -/

/-- C1: for every rule and every (field, validator) pair, `errorMessage`
resolves in strict precedence order: the messages-map entry under the
exact key `field.validator`, else the entry under the exact key `field`,
else the non-empty single message, else the translator output built from
the validator name, the field name and the rule arguments. -/
theorem c1_errorMessage_precedence (r : Rule) (field validator : String) (v : Validation) :
    r.errorMessage field validator v = errorMessageSpec r field validator v := by
  unfold Rule.errorMessage errorMessageSpec
  cases r.messages with
  | none => rfl
  | some msgs =>
    cases h1 : msgs.lookup (field ++ "." ++ validator) <;>
      cases h2 : msgs.lookup field <;>
        simp [h1, h2]

/-- C7: every rule added through `AddRule` or `AppendRule` has its
skip-empty flag overwritten with the engine policy `SkipOnEmpty` at the
moment of addition, and is the rule appended at the end of the engine
rule sequence. -/
theorem c7_addRule_inherits_skipOnEmpty (v : Validation) (fields validator : String)
    (args : List GoVal) (r : Rule) :
    ((v.AddRule fields validator args).2.skipEmpty = v.SkipOnEmpty ∧
      (v.AddRule fields validator args).1.rules =
        v.rules ++ [(v.AddRule fields validator args).2]) ∧
    ((v.AppendRule r).2.skipEmpty = v.SkipOnEmpty ∧
      (v.AppendRule r).1.rules = v.rules ++ [(v.AppendRule r).2]) :=
  ⟨⟨rfl, rfl⟩, ⟨rfl, rfl⟩⟩

/-- C6 counterexample: the claim says all seven setters return the rule
for chaining, but on a concrete rule `SetOptional`, `SetSkipEmpty` and
`SetBeforeFunc` return nothing (in the encoding: the Go return value is
`none`, never the updated rule). -/
theorem c6_counterexample :
    (Rule.SetOptional sampleRule true).2 ≠ some (Rule.SetOptional sampleRule true).1 ∧
    (Rule.SetSkipEmpty sampleRule true).2 ≠ some (Rule.SetSkipEmpty sampleRule true).1 ∧
    (Rule.SetBeforeFunc sampleRule (fun _ => true)).2 ≠
      some (Rule.SetBeforeFunc sampleRule (fun _ => true)).1 := by
  refine ⟨?_, ?_, ?_⟩ <;>
    simp [Rule.SetOptional, Rule.SetSkipEmpty, Rule.SetBeforeFunc]

/-- C6 amended: each of the seven setters updates exactly its own
attribute of the rule and performs no eager validation; `SetMessage`,
`SetMessages`, `SetFilterFunc` and `SetCheckFunc` return the updated rule
for chaining, while `SetOptional`, `SetSkipEmpty` and `SetBeforeFunc`
return no value. -/
theorem c6_setters_amended (r : Rule) (b1 b2 : Bool) (m : String) (mm : MS)
    (bf : BeforeFn) (ff : FilterFn) (cf : CheckFn) :
    Rule.SetOptional r b1 = ({ r with optional := b1 }, none) ∧
    Rule.SetSkipEmpty r b2 = ({ r with skipEmpty := b2 }, none) ∧
    Rule.SetBeforeFunc r bf = ({ r with beforeFunc := some bf }, none) ∧
    Rule.SetMessage r m = ({ r with message := m }, some { r with message := m }) ∧
    Rule.SetMessages r mm =
      ({ r with messages := some mm }, some { r with messages := some mm }) ∧
    Rule.SetFilterFunc r ff =
      ({ r with filterFunc := some ff }, some { r with filterFunc := some ff }) ∧
    (Rule.SetCheckFunc r cf).2 = some (Rule.SetCheckFunc r cf).1 ∧
    (Rule.SetCheckFunc r cf).1 =
      { r with checkFuncMeta := (Rule.SetCheckFunc r cf).1.checkFuncMeta } :=
  ⟨rfl, rfl, rfl, rfl, rfl, rfl, rfl, rfl⟩

/-- C2 counterexample: `mpA` and `mpB` are the same field-to-rule mapping
(one is a permutation of the other, with distinct keys), yet `StringRules`
on the same engine produces different rule sequences for the two iteration
sequences — so the rule order is the iteration order Go happens to use,
not a fixed insertion order, and equal engines with the same mapping need
not produce the same sequence. -/
theorem c2_counterexample :
    mpA.Perm mpB ∧
    (sampleV.StringRules mpA).rules.map Rule.validator ≠
      (sampleV.StringRules mpB).rules.map Rule.validator :=
  ⟨by decide, by decide⟩

/-- C2 amended: `StringRules` appends, for each (field, rule text) pair in
the order of the iteration sequence it is given, exactly the rules that
pair parses to, after the existing rules; the result is a function of the
engine and the iteration sequence, so it is deterministic only once the
iteration order of the Go map — which Go leaves unspecified — is fixed. -/
theorem c2_stringRules_iteration_order (v : Validation) (mp : MS) :
    (v.StringRules mp).rules = v.rules ++ mapRules v.SkipOnEmpty mp := by
  unfold Validation.StringRules mapRules
  induction mp generalizing v with
  | nil => simp
  | cons p ps ih =>
    simp only [List.foldl_cons, List.map_cons, List.flatten_cons]
    rw [ih, stringRule_rules, stringRule_skipOnEmpty, List.append_assoc]

/-- C3 counterexample: the rule text `"default"` is a token whose
validator name normalises to `default`, yet `StringRule` appends an
ordinary zero-argument rule for it and records no default value — the
claims behaviour only happens for a `default` token that carries a colon
and arguments. -/
theorem c3_counterexample :
    (sampleV.StringRule "age" "default" []).rules.map Rule.validator = ["default"] ∧
    (sampleV.StringRule "age" "default" []).defValues = [] :=
  ⟨by decide, by decide⟩

/-- C3 amended: a token that still contains a colon after trimming and
whose name part normalises to `default` appends no rule; the remainder
after the first colon is recorded as the default value of the field.  A
bare `default` token without a colon instead appends an ordinary
zero-argument rule. -/
theorem c3_default_with_args (v : Validation) (field token : String)
    (hc : strContainsChar (trimChars token [':']) ':' = true)
    (hn : ValidatorName (splitFirstColon (trimChars token [':'])).1 = "default") :
    v.processToken field token =
      v.SetDefValue field (splitFirstColon (trimChars token [':'])).2 ∧
    (v.processToken field token).rules = v.rules := by
  have hne : (trimChars token [':'] == "") = false := by
    cases he : trimChars token [':'] == "" with
    | false => rfl
    | true =>
      have : trimChars token [':'] = "" := by
        exact eq_of_beq he
      rw [this] at hc
      exact absurd hc (by decide)
  have h1 : v.processToken field token =
      v.SetDefValue field (splitFirstColon (trimChars token [':'])).2 := by
    unfold Validation.processToken
    dsimp only
    rw [hne]
    simp only [Bool.false_eq_true, if_false, hc, if_true, hn]
    simp
  exact ⟨h1, by rw [h1]; rfl⟩

/-- C3 witness: on the token `default:18` for field `age`, the engine
records the default value and appends no rule. -/
theorem c3_witness :
    strContainsChar (trimChars "default:18" [':']) ':' = true ∧
    ValidatorName (splitFirstColon (trimChars "default:18" [':'])).1 = "default" ∧
    sampleV.processToken "age" "default:18" = sampleV.SetDefValue "age" "18" ∧
    (sampleV.processToken "age" "default:18").rules = sampleV.rules := by
  have h := c3_default_with_args sampleV "age" "default:18" (by decide) (by decide)
  have hs : (splitFirstColon (trimChars "default:18" [':'])).2 = "18" := by decide
  refine ⟨by decide, by decide, ?_, h.2⟩
  rw [← hs]
  exact h.1

lemma contains_colon_ne_empty (t : String)
    (hc : strContainsChar (trimChars t [':']) ':' = true) :
    (trimChars t [':'] == "") = false := by
  cases he : trimChars t [':'] == "" with
  | false => rfl
  | true =>
    have : trimChars t [':'] = "" := eq_of_beq he
    rw [this] at hc
    exact absurd hc (by decide)

/-- C4: a token still containing a colon after trimming and whose name
part normalises to `regexp` appends exactly one rule whose argument list
is the single string holding the entire remainder of the token after the
first colon — commas and further colons inside the remainder are not
split. -/
theorem c4_regexp_whole_remainder (v : Validation) (field token : String)
    (hc : strContainsChar (trimChars token [':']) ':' = true)
    (hn : ValidatorName (splitFirstColon (trimChars token [':'])).1 = "regexp") :
    (v.processToken field token).rules =
      v.rules ++ [{ NewRule field (splitFirstColon (trimChars token [':'])).1
          [GoVal.strV (splitFirstColon (trimChars token [':'])).2] with
        skipEmpty := v.SkipOnEmpty }] := by
  rw [processToken_rules]
  unfold tokenRules
  dsimp only
  rw [contains_colon_ne_empty token hc, hn]
  simp [hc]

/-- C4 witness: the token `regexp:^a,b:c$` for the field `code` yields one
rule for validator `regexp` whose only argument is the untouched remainder
`^a,b:c$`, comma and second colon included. -/
theorem c4_witness :
    strContainsChar (trimChars "regexp:^a,b:c$" [':']) ':' = true ∧
    (sampleV.processToken "code" "regexp:^a,b:c$").rules.map Rule.validator = ["regexp"] ∧
    (sampleV.processToken "code" "regexp:^a,b:c$").rules.map Rule.arguments =
      [[GoVal.strV "^a,b:c$"]] := by
  have h := c4_regexp_whole_remainder sampleV "code" "regexp:^a,b:c$" (by decide) (by decide)
  refine ⟨by decide, ?_, ?_⟩ <;> rw [h] <;> rfl

/-- C5: a token still containing a colon after trimming and whose name
part normalises to `enum` or `notIn` appends exactly one rule whose
argument list is one grouped value: the list of the comma-split argument
strings, not individual positional arguments. -/
theorem c5_enum_grouped_arg (v : Validation) (field token : String)
    (hc : strContainsChar (trimChars token [':']) ':' = true)
    (hn : ValidatorName (splitFirstColon (trimChars token [':'])).1 = "enum" ∨
      ValidatorName (splitFirstColon (trimChars token [':'])).1 = "notIn") :
    (v.processToken field token).rules =
      v.rules ++ [{ NewRule field (splitFirstColon (trimChars token [':'])).1
          [GoVal.strListV (parseArgString (splitFirstColon (trimChars token [':'])).2)] with
        skipEmpty := v.SkipOnEmpty }] := by
  rw [processToken_rules]
  unfold tokenRules
  dsimp only
  rw [contains_colon_ne_empty token hc]
  rcases hn with hn | hn <;> rw [hn] <;> simp [hc]

/-- C5 witness: the token `enum:a,b,c` for the field `kind` yields one
rule for validator `enum` whose only argument is the grouped list
`["a", "b", "c"]`. -/
theorem c5_witness :
    strContainsChar (trimChars "enum:a,b,c" [':']) ':' = true ∧
    (sampleV.processToken "kind" "enum:a,b,c").rules.map Rule.validator = ["enum"] ∧
    (sampleV.processToken "kind" "enum:a,b,c").rules.map Rule.arguments =
      [[GoVal.strListV ["a", "b", "c"]]] := by
  have h := c5_enum_grouped_arg sampleV "kind" "enum:a,b,c" (by decide) (Or.inl (by decide))
  refine ⟨by decide, ?_, ?_⟩ <;> rw [h] <;> rfl

/-- C8 counterexample: a `time.Time` value has struct kind, yet
`FromStruct` rejects it with an error — contradicting the claim that any
struct argument yields a data source with no error. -/
theorem c8_counterexample :
    isStructKind (reflectDeref (GoVal.structV true [])) = true ∧
    (FromStruct (GoVal.structV true [])).2 ≠ none :=
  ⟨rfl, by decide⟩

/-- C8 amended: `FromStruct` succeeds exactly when the argument is not the
nil interface and, after dereferencing a non-nil pointer, has struct kind
and is not of type `time.Time`; `FromJSONBytes` succeeds exactly when the
JSON decoder accepts the input bytes. -/
theorem c8_constructor_errors (s : GoVal)
    (decode : String → Option (List (String × GoVal))) (bs : String) :
    ((FromStruct s).2 = none ↔
      (s ≠ GoVal.nilV ∧ isStructKind (reflectDeref s) = true ∧
        isTimeStruct (reflectDeref s) = false)) ∧
    (exceptOk (FromJSONBytes decode bs) = true ↔ (decode bs).isSome = true) := by
  constructor
  · cases s with
    | nilV => simp [FromStruct]
    | ptrV o =>
      cases o with
      | none => simp [FromStruct, reflectDeref, isStructKind]
      | some inner =>
        cases hb1 : isStructKind inner <;> cases hb2 : isTimeStruct inner <;>
          simp [FromStruct, reflectDeref, hb1, hb2]
    | structV b flds =>
      cases b <;> simp [FromStruct, reflectDeref, isStructKind, isTimeStruct]
    | strV s1 => simp [FromStruct, reflectDeref, isStructKind]
    | intV n => simp [FromStruct, reflectDeref, isStructKind]
    | boolV b => simp [FromStruct, reflectDeref, isStructKind]
    | strListV l => simp [FromStruct, reflectDeref, isStructKind]
    | sliceV l => simp [FromStruct, reflectDeref, isStructKind]
  · cases hd : decode bs <;> simp [FromJSONBytes, exceptOk, hd]

/-- C9: any value that is a `time.Time` struct after pointer dereference —
the time value itself or a non-nil pointer to one — is rejected by
`FromStruct` with the invalid-data error, although its kind is struct. -/
theorem c9_time_rejected (s : GoVal) (h : isTimeStruct (reflectDeref s) = true) :
    (FromStruct s).2 = some ErrInvalidData := by
  cases s with
  | nilV => simp [FromStruct]
  | ptrV o =>
    cases o with
    | none => simp [reflectDeref, isTimeStruct] at h
    | some inner =>
      simp only [reflectDeref] at h
      simp [FromStruct, reflectDeref, h]
  | structV b flds =>
    simp only [reflectDeref, isTimeStruct] at h
    simp [FromStruct, reflectDeref, isStructKind, isTimeStruct, h]
  | strV s1 => simp [reflectDeref, isTimeStruct] at h
  | intV n => simp [reflectDeref, isTimeStruct] at h
  | boolV b => simp [reflectDeref, isTimeStruct] at h
  | strListV l => simp [reflectDeref, isTimeStruct] at h
  | sliceV l => simp [reflectDeref, isTimeStruct] at h

/-- C9 witness: a non-nil pointer to a `time.Time` struct is rejected with
the invalid-data error. -/
theorem c9_witness :
    isTimeStruct (reflectDeref (GoVal.ptrV (some (GoVal.structV true [])))) = true ∧
    (FromStruct (GoVal.ptrV (some (GoVal.structV true [])))).2 = some ErrInvalidData :=
  ⟨rfl, c9_time_rejected (GoVal.ptrV (some (GoVal.structV true []))) rfl⟩

/-- C10: for every request whose method is not POST, PUT or PATCH,
`FromRequest` returns, with no error, the form data source built from the
URL query values alone — the body, its parse outcomes and the Content-Type
header never influence the result. -/
theorem c10_nonbody_method (decode : String → Option (List (String × GoVal)))
    (r : HttpRequest) (mm : List Int)
    (h1 : r.method ≠ "POST") (h2 : r.method ≠ "PUT") (h3 : r.method ≠ "PATCH") :
    FromRequest decode r mm = Except.ok (DataFace.form (FromURLValues r.queryValues)) := by
  unfold FromRequest
  have b1 : (r.method == "POST") = false := beq_eq_false_iff_ne.mpr h1
  have b2 : (r.method == "PUT") = false := beq_eq_false_iff_ne.mpr h2
  have b3 : (r.method == "PATCH") = false := beq_eq_false_iff_ne.mpr h3
  simp [b1, b2, b3]

/-- C10 witness: a GET request carrying a JSON content type, a readable
body and parse outcomes still yields exactly the query-built form data
source, with no error. -/
theorem c10_witness :
    FromRequest (fun _ => none) sampleReq [] =
      Except.ok (DataFace.form (FromURLValues [("age", ["10"]), ("name", ["inhere"])])) :=
  c10_nonbody_method (fun _ => none) sampleReq [] (by decide) (by decide) (by decide)
